import Mathlib

/-!
Verification of the trainer/model layer of `models.py` (PerceptronModel,
RegressionModel, DigitClassificationModel) over a shallow embedding.

The external autodiff engine `nn` is not part of the source tree; its
operations (`DotProduct`, `Parameter.update`, `Linear`, `AddBias`, `ReLU`,
`as_scalar`) are modelled from the interface contract of the specification
(§6).  Numeric values are modelled as rationals.  `nn.gradients` and the
scalar loss evaluation are kept abstract (universally quantified functions)
for the training-loop claims, since the claims hold for every gradient
oracle and every loss evaluator.
-/

namespace PacmanML

/-- A vector: one row of an `nn` tensor, modelled as a list of rationals. -/
abbrev Vec := List ℚ

/-- A labeled perceptron example `(x, y)`: `x` is the input row,
`y = nn.as_scalar(y_node)` is the label. -/
abbrev Ex := Vec × ℚ

/-- Modelled from the spec: `nn.DotProduct(a, b)` together with
`nn.as_scalar` — the dot product of two equal-length vectors
(`nn` is not under `src/`; §6 lists `DotProduct` as a pure graph op). -/
def dot (a b : Vec) : ℚ := (List.zipWith (· * ·) a b).sum

/-- Squared Euclidean norm, `dot a a`. -/
def normSq (a : Vec) : ℚ := dot a a

/-- Elementwise vector addition. -/
def vadd (a b : Vec) : Vec := List.zipWith (· + ·) a b

/-- Scalar multiple of a vector. -/
def smul (c : ℚ) (a : Vec) : Vec := a.map (fun v => c * v)

/-- Modelled from the spec: `Parameter.update(direction, scale)` —
in-place `value ← value + scale · direction` (§6); here the updated value
is returned.  Mirrors the call `self.w.update(x, nn.as_scalar(y))`. -/
def update (w : Vec) (direction : Vec) (scale : ℚ) : Vec :=
  vadd w (smul scale direction)

/-- Method `PerceptronModel.run(x)`: the score `nn.DotProduct(self.w, x)`. -/
def run (w x : Vec) : ℚ := dot w x

/-- Method `PerceptronModel.get_prediction(x)`: `1` if `as_scalar(run(x)) >= 0`,
else `-1`. -/
def get_prediction (w x : Vec) : ℚ :=
  if 0 ≤ run w x then 1 else -1

/-- One iteration of the body of the inner `for` loop of
`PerceptronModel.train`: update the weights on a mistake, else leave
them unchanged. -/
def perStep (w : Vec) (e : Ex) : Vec :=
  if get_prediction w e.1 ≠ e.2 then update w e.1 e.2 else w

/-- One full sweep of `dataset.iterate_once(1)` inside
`PerceptronModel.train`, returning the final weights and the number of
mistakes (`flag` is set in the source exactly when this count is
positive). -/
def sweepM (w : Vec) : List Ex → Vec × ℕ
  | [] => (w, 0)
  | e :: rest =>
    if get_prediction w e.1 ≠ e.2 then
      let r := sweepM (update w e.1 e.2) rest
      (r.1, r.2 + 1)
    else
      sweepM w rest

/-- Weights after `n` full sweeps of the `while` loop of
`PerceptronModel.train`. -/
def iterSweep (D : List Ex) (w : Vec) : ℕ → Vec
  | 0 => w
  | n + 1 => iterSweep D (sweepM w D).1 n

/-- Total number of mistakes (weight updates) made during the first `n`
sweeps of `PerceptronModel.train`. -/
def totalMistakes (D : List Ex) (w : Vec) : ℕ → ℕ
  | 0 => 0
  | n + 1 => (sweepM w D).2 + totalMistakes D (sweepM w D).1 n

/-- Termination: `PerceptronModel.train dataset` terminates from initial weights `w`:
some sweep makes zero mistakes (the loop's `flag` stays `False`). -/
def perceptronTerminates (D : List Ex) (w : Vec) : Prop :=
  ∃ n, (sweepM (iterSweep D w n) D).2 = 0

/-- Strict linear separability: some weight vector of the same dimension
puts every example strictly on the correct side. -/
def StrictlySeparable (d : ℕ) (D : List Ex) : Prop :=
  ∃ ws : Vec, ws.length = d ∧ ∀ e ∈ D, 0 < e.2 * dot ws e.1

/-! ### Matrices and the external graph operations (spec §6) -/

/-- A matrix (an `nn` tensor): a list of rows. -/
abbrev Mat := List (List ℚ)

/-- Number of columns of a matrix (length of its first row). -/
def numCols (m : Mat) : ℕ := (m.headD []).length

/-- Shape predicate: `m` has `r` rows, each of length `c`. -/
def isShape (m : Mat) (r c : ℕ) : Prop :=
  m.length = r ∧ ∀ row ∈ m, row.length = c

/-- Modelled from the spec: `nn.Linear(x, w)` — standard matrix product
(`nn` is not under `src/`; §6 lists `Linear` as a pure graph op with
standard matrix shape rules). -/
def matMul (A B : Mat) : Mat :=
  A.map (fun row =>
    (List.range (numCols B)).map (fun j =>
      (List.zipWith (fun a brow => a * List.getD brow j 0) row B).sum))

/-- Modelled from the spec: `nn.AddBias(x, b)` — adds the (single-row)
bias `b` to every row of `x` (§6, standard broadcast rules). -/
def addBias (A b : Mat) : Mat :=
  A.map (fun row => List.zipWith (· + ·) row (b.headD []))

/-- Modelled from the spec: `nn.ReLU(x)` — elementwise `max · 0` (§6). -/
def relu (A : Mat) : Mat :=
  A.map (List.map (fun v => max v 0))

/-- Modelled from the spec: `Parameter.update(direction, scale)` on a
matrix-shaped Parameter — elementwise `value ← value + scale · direction`
(§6). -/
def matUpdate (p g : Mat) (s : ℚ) : Mat :=
  List.zipWith (fun prow grow =>
    List.zipWith (fun a b => a + s * b) prow grow) p g

/-- An `(x, y)` minibatch produced by `dataset.iterate_once`. -/
abbrev Batch := Mat × Mat

/-- The four gradients returned by
`nn.gradients(loss, [w1, b1, w2, b2])`, in that positional order. -/
abbrev Grad4 := Mat × Mat × Mat × Mat

/-! ### RegressionModel -/

/-- State of a `RegressionModel` object: the fields set by `__init__`. -/
structure RegressionModel where
  batch_size : ℕ
  hiddenLayerSize : ℕ
  learningRate : ℚ
  w1 : Mat
  b1 : Mat
  w2 : Mat
  b2 : Mat

/-- Constructor `RegressionModel.__init__`: hyperparameters `batch_size = 4`,
`hiddenLayerSize = 150`, `learningRate = 0.01`; the four Parameters are
created by `nn.Parameter` with externally chosen (random) values, so they
are arguments here. -/
def regInit (w1 b1 w2 b2 : Mat) : RegressionModel :=
  ⟨4, 150, 0.01, w1, b1, w2, b2⟩

/-- Method `RegressionModel.run(x)`:
`Linear(x, w1) → AddBias(b1) → ReLU → Linear(w2) → AddBias(b2)`. -/
def RegressionModel.run (m : RegressionModel) (x : Mat) : Mat :=
  let xm := matMul x m.w1
  let xm := relu (addBias xm m.b1)
  let xm := matMul xm m.w2
  let xm := addBias xm m.b2
  xm

/-- One pass of the body of the inner `for` loop of
`RegressionModel.train`: a single `nn.gradients` call on the loss node of
the batch (abstracted as the oracle `grads`, a function of the
pre-update model state and the batch), followed by the four
`Parameter.update` calls in source order `w1, b1, b2, w2`, each with
scale `-1 * self.learningRate`. -/
def RegressionModel.trainStep (grads : RegressionModel → Mat → Mat → Grad4)
    (m : RegressionModel) (x y : Mat) : RegressionModel :=
  let g := grads m x y
  let m1 := { m with w1 := matUpdate m.w1 g.1 (-1 * m.learningRate) }
  let m2 := { m1 with b1 := matUpdate m1.b1 g.2.1 (-1 * m1.learningRate) }
  let m3 := { m2 with b2 := matUpdate m2.b2 g.2.2.2 (-1 * m2.learningRate) }
  let m4 := { m3 with w2 := matUpdate m3.w2 g.2.2.1 (-1 * m3.learningRate) }
  m4

/-- Loop state of `RegressionModel.train`: the model object together with
the current value of the local variable `loss` (as a scalar). -/
abbrev RState := RegressionModel × ℚ

/-- One full sweep of the inner `for` loop of `RegressionModel.train`
over the batches of `dataset.iterate_once(self.batch_size)`.  After each
batch the local `loss` is re-assigned
`nn.as_scalar(self.get_loss(x, y))`, i.e. the scalar value (oracle `sq`,
standing for `as_scalar ∘ SquareLoss`) of the loss of the *updated* model
on that same batch. -/
def regSweep (grads : RegressionModel → Mat → Mat → Grad4)
    (sq : Mat → Mat → ℚ) (batches : List Batch) (s : RState) : RState :=
  batches.foldl (fun s b =>
    let m' := RegressionModel.trainStep grads s.1 b.1 b.2
    (m', sq (m'.run b.1) b.2)) s

/-- The `while loss > 0.015` loop of `RegressionModel.train`, with fuel:
`some` is the state at normal exit, `none` means the loop is still
running after `fuel` sweeps. -/
def regTrainAux (grads : RegressionModel → Mat → Mat → Grad4)
    (sq : Mat → Mat → ℚ) (batches : List Batch) :
    ℕ → RState → Option RState
  | 0, s => if s.2 ≤ 0.015 then some s else none
  | n + 1, s =>
    if s.2 ≤ 0.015 then some s
    else regTrainAux grads sq batches n (regSweep grads sq batches s)

/-- Method `RegressionModel.train(dataset)`: the local `loss` starts at `1`, the
batches come from `dataset.iterate_once(self.batch_size)`. -/
def RegressionModel.train (grads : RegressionModel → Mat → Mat → Grad4)
    (sq : Mat → Mat → ℚ) (iterate_once : ℕ → List Batch)
    (m : RegressionModel) (fuel : ℕ) : Option RState :=
  regTrainAux grads sq (iterate_once m.batch_size) fuel (m, 1)

/-- Iteration of `n` full `RegressionModel.train` sweeps. -/
def regIterSweep (grads : RegressionModel → Mat → Mat → Grad4)
    (sq : Mat → Mat → ℚ) (batches : List Batch) (s : RState) : ℕ → RState
  | 0 => s
  | n + 1 => regIterSweep grads sq batches (regSweep grads sq batches s) n

/-! ### DigitClassificationModel -/

/-- State of a `DigitClassificationModel` object. -/
structure DigitClassificationModel where
  batch_size : ℕ
  hiddenLayerSize : ℕ
  learningRate : ℚ
  w1 : Mat
  b1 : Mat
  w2 : Mat
  b2 : Mat

/-- Constructor `DigitClassificationModel.__init__`: `batch_size = 100`,
`hiddenLayerSize = 150`, `learningRate = 0.01`. -/
def digitInit (w1 b1 w2 b2 : Mat) : DigitClassificationModel :=
  ⟨100, 150, 0.01, w1, b1, w2, b2⟩

/-- Method `DigitClassificationModel.run(x)`: same topology as the regression
network. -/
def DigitClassificationModel.run (m : DigitClassificationModel) (x : Mat) : Mat :=
  let xm := matMul x m.w1
  let xm := relu (addBias xm m.b1)
  let xm := matMul xm m.w2
  let xm := addBias xm m.b2
  xm

/-- One pass of the body of the inner `for` loop of
`DigitClassificationModel.train`: one `nn.gradients` call, then the four
updates in source order `w1, b1, b2, w2` with scale
`-1 * self.learningRate`. -/
def DigitClassificationModel.trainStep
    (grads : DigitClassificationModel → Mat → Mat → Grad4)
    (m : DigitClassificationModel) (x y : Mat) : DigitClassificationModel :=
  let g := grads m x y
  let m1 := { m with w1 := matUpdate m.w1 g.1 (-1 * m.learningRate) }
  let m2 := { m1 with b1 := matUpdate m1.b1 g.2.1 (-1 * m1.learningRate) }
  let m3 := { m2 with b2 := matUpdate m2.b2 g.2.2.2 (-1 * m2.learningRate) }
  let m4 := { m3 with w2 := matUpdate m3.w2 g.2.2.1 (-1 * m3.learningRate) }
  m4

/-- One epoch of `DigitClassificationModel.train`: the inner `for` loop
over `dataset.iterate_once(self.batch_size)`. -/
def digitEpoch (grads : DigitClassificationModel → Mat → Mat → Grad4)
    (batches : List Batch) (m : DigitClassificationModel) :
    DigitClassificationModel :=
  batches.foldl (fun m b => DigitClassificationModel.trainStep grads m b.1 b.2) m

/-- Method `DigitClassificationModel.train(dataset)`: `for i in range(100)`
around the epoch loop; `iterate_once` is called afresh each epoch with
the current `self.batch_size`. -/
def DigitClassificationModel.train
    (grads : DigitClassificationModel → Mat → Mat → Grad4)
    (iterate_once : ℕ → List Batch) (m : DigitClassificationModel) :
    DigitClassificationModel :=
  (List.range 100).foldl
    (fun m _ => digitEpoch grads (iterate_once m.batch_size) m) m

/-- Instrumented variant of `DigitClassificationModel.train` that counts
executed epochs. -/
def digitTrainCount
    (grads : DigitClassificationModel → Mat → Mat → Grad4)
    (iterate_once : ℕ → List Batch) (m : DigitClassificationModel) :
    DigitClassificationModel × ℕ :=
  (List.range 100).foldl
    (fun s _ => (digitEpoch grads (iterate_once s.1.batch_size) s.1, s.2 + 1))
    (m, 0)

/-! ### Auxiliary definitions for the claims -/

/-- Predicate: `(i, j)` is a valid entry position of the matrix `A`. -/
def entryOK (A : Mat) (i j : ℕ) : Prop :=
  i < A.length ∧ j < (A.getD i []).length

instance (A : Mat) (i j : ℕ) : Decidable (entryOK A i j) := by
  unfold entryOK; infer_instance

/-- Entry `(i, j)` of a matrix (default `0`). -/
def matEntry (A : Mat) (i j : ℕ) : ℚ := (A.getD i []).getD j 0

/-- The batch step of `RegressionModel.train` with the two last updates
swapped: order `w1, b1, w2, b2` instead of the source order
`w1, b1, b2, w2`. -/
def RegressionModel.trainStepAlt (grads : RegressionModel → Mat → Mat → Grad4)
    (m : RegressionModel) (x y : Mat) : RegressionModel :=
  let g := grads m x y
  let m1 := { m with w1 := matUpdate m.w1 g.1 (-1 * m.learningRate) }
  let m2 := { m1 with b1 := matUpdate m1.b1 g.2.1 (-1 * m1.learningRate) }
  let m3 := { m2 with w2 := matUpdate m2.w2 g.2.2.1 (-1 * m2.learningRate) }
  let m4 := { m3 with b2 := matUpdate m3.b2 g.2.2.2 (-1 * m3.learningRate) }
  m4

/-- The batch step of `DigitClassificationModel.train` with the two last
updates swapped: order `w1, b1, w2, b2`. -/
def DigitClassificationModel.trainStepAlt
    (grads : DigitClassificationModel → Mat → Mat → Grad4)
    (m : DigitClassificationModel) (x y : Mat) : DigitClassificationModel :=
  let g := grads m x y
  let m1 := { m with w1 := matUpdate m.w1 g.1 (-1 * m.learningRate) }
  let m2 := { m1 with b1 := matUpdate m1.b1 g.2.1 (-1 * m1.learningRate) }
  let m3 := { m2 with w2 := matUpdate m2.w2 g.2.2.1 (-1 * m2.learningRate) }
  let m4 := { m3 with b2 := matUpdate m3.b2 g.2.2.2 (-1 * m3.learningRate) }
  m4

/-! ### Concrete instances used to witness the hypotheses of the claims -/

/-- A concrete gradient oracle for `RegressionModel` returning `[[3]]`
for every parameter. -/
def cgrads : RegressionModel → Mat → Mat → Grad4 :=
  fun _ _ _ => ([[3]], [[3]], [[3]], [[3]])

/-- A concrete gradient oracle for `DigitClassificationModel` returning
`[[3]]` for every parameter. -/
def cdgrads : DigitClassificationModel → Mat → Mat → Grad4 :=
  fun _ _ _ => ([[3]], [[3]], [[3]], [[3]])

/-- A concrete scalar-loss oracle. -/
def csq : Mat → Mat → ℚ := fun _ _ => 0

/-- A concrete `RegressionModel` state with `1 × 1` parameters. -/
def cm : RegressionModel := regInit [[5]] [[5]] [[5]] [[5]]

/-- A concrete `DigitClassificationModel` state with `1 × 1`
parameters. -/
def cdm : DigitClassificationModel := digitInit [[5]] [[5]] [[5]] [[5]]

/-! ### Basic lemmas about vectors -/

theorem dot_nil_left (x : Vec) : dot [] x = 0 := rfl

theorem dot_nil_right (w : Vec) : dot w [] = 0 := by
  cases w <;> rfl

theorem dot_cons (a : ℚ) (w : Vec) (b : ℚ) (x : Vec) :
    dot (a :: w) (b :: x) = a * b + dot w x := by
  simp [dot]

/-- If the perceptron update leaves the weights unchanged (with a nonzero
scale), the score of the update direction was zero. -/
theorem dot_eq_zero_of_vadd_smul_eq {y : ℚ} (hy : y ≠ 0) :
    ∀ w x : Vec, vadd w (smul y x) = w → dot w x = 0 := by
  intro w
  induction w with
  | nil => intro x _; rfl
  | cons a w ih =>
    intro x h
    cases x with
    | nil => simp [vadd, smul] at h
    | cons b x =>
      simp only [vadd, smul, List.map_cons, List.zipWith_cons_cons,
        List.cons.injEq] at h
      obtain ⟨h1, h2⟩ := h
      have hb : b = 0 := by
        have hyb : y * b = 0 := by linarith
        rcases mul_eq_zero.mp hyb with h' | h'
        · exact absurd h' hy
        · exact h'
      rw [dot_cons, hb, ih x h2]
      ring

/-! ### Claim theorems: perceptron pointwise behavior -/

/-- Claim C6: `PerceptronModel.run` returns the dot product of the
weights and the input, and `get_prediction` returns `+1` exactly when
that score is `≥ 0` (in particular at score `0`) and `-1` otherwise. -/
theorem perceptron_run_prediction (w x : Vec) :
    run w x = dot w x ∧
    (0 ≤ dot w x → get_prediction w x = 1) ∧
    (dot w x < 0 → get_prediction w x = -1) ∧
    (dot w x = 0 → get_prediction w x = 1) ∧
    (get_prediction w x = 1 ∨ get_prediction w x = -1) := by
  refine ⟨rfl, ?_, ?_, ?_, ?_⟩
  · intro h; simp [get_prediction, run, h]
  · intro h; simp [get_prediction, run, not_le.mpr h]
  · intro h; simp [get_prediction, run, h]
  · by_cases h : 0 ≤ run w x
    · left; simp [get_prediction, h]
    · right; simp [get_prediction, h]

/-- Witness for C6 at `w = [2]`, `x = [3]`. -/
theorem perceptron_run_prediction_witness :
    (0 : ℚ) ≤ dot [2] [3] ∧ get_prediction [2] [3] = 1 :=
  ⟨by norm_num [dot], (perceptron_run_prediction [2] [3]).2.1 (by norm_num [dot])⟩

/-- Claim C5: during `PerceptronModel.train`, the weights are updated
(`w ← w + y·x`, via `Parameter.update` with direction `x` and scale `y`)
exactly when `get_prediction x` disagrees with `y`; and whenever
`y·(w·x) < 0` the weight vector strictly changes. -/
theorem perceptron_update_rule (w x : Vec) (y : ℚ) :
    (get_prediction w x = y → perStep w (x, y) = w) ∧
    (get_prediction w x ≠ y → perStep w (x, y) = update w x y) ∧
    (y * dot w x < 0 → perStep w (x, y) ≠ w) := by
  refine ⟨?_, ?_, ?_⟩
  · intro h; simp [perStep, h]
  · intro h; simp [perStep, h]
  · intro h hEq
    have hy : y ≠ 0 := by
      intro h0; rw [h0] at h; simp at h
    have hdot : dot w x ≠ 0 := by
      intro h0; rw [h0] at h; simp at h
    have hne : get_prediction w x ≠ y := by
      intro hEq2
      unfold get_prediction run at hEq2
      by_cases hc : 0 ≤ dot w x
      · rw [if_pos hc] at hEq2
        rw [← hEq2] at h
        nlinarith
      · rw [if_neg hc] at hEq2
        rw [← hEq2] at h
        push_neg at hc
        nlinarith
    rw [perStep, if_pos hne] at hEq
    exact hdot (dot_eq_zero_of_vadd_smul_eq hy w x hEq)

/-- Witness for C5 at `w = [1]`, `x = [1]`, `y = -1`: the example is
misclassified with negative margin and the weights strictly change. -/
theorem perceptron_update_rule_witness :
    (-1 : ℚ) * dot [1] [1] < 0 ∧ perStep [1] ([1], -1) ≠ [1] :=
  ⟨by norm_num [dot],
   (perceptron_update_rule [1] [1] (-1)).2.2 (by norm_num [dot])⟩

/-! ### Claim theorems: purity of the forward pass -/

/-- Claim C8: for both network models, `run` is a pure function of the
four Parameters and the input batch: two states that agree on the
Parameters produce identical outputs, whatever their other fields, and
two runs with no intervening update are identical. -/
theorem run_pure_in_parameters (m₁ m₂ : RegressionModel)
    (d₁ d₂ : DigitClassificationModel) (x z : Mat)
    (h1 : m₁.w1 = m₂.w1) (h2 : m₁.b1 = m₂.b1)
    (h3 : m₁.w2 = m₂.w2) (h4 : m₁.b2 = m₂.b2)
    (g1 : d₁.w1 = d₂.w1) (g2 : d₁.b1 = d₂.b1)
    (g3 : d₁.w2 = d₂.w2) (g4 : d₁.b2 = d₂.b2) :
    m₁.run x = m₂.run x ∧ m₁.run x = m₁.run x ∧
    d₁.run z = d₂.run z ∧ d₁.run z = d₁.run z := by
  refine ⟨?_, rfl, ?_, rfl⟩
  · simp [RegressionModel.run, h1, h2, h3, h4]
  · simp [DigitClassificationModel.run, g1, g2, g3, g4]

/-- Witness for C8: two model states agreeing on the Parameters but not
on `batch_size` produce the same forward output. -/
theorem run_pure_in_parameters_witness :
    cm.w1 = ({ cm with batch_size := 999 } : RegressionModel).w1 ∧
    cm.run [[1]] = ({ cm with batch_size := 999 } : RegressionModel).run [[1]] :=
  ⟨rfl,
   (run_pure_in_parameters cm { cm with batch_size := 999 } cdm cdm [[1]] [[1]]
      rfl rfl rfl rfl rfl rfl rfl rfl).1⟩

/-! ### Claim theorems: structure of one gradient-descent step -/

/-- Claim C10: in each batch step of both training loops, all four
gradients come from a single `nn.gradients` call evaluated on the
pre-step parameters, so the sequential updates equal a simultaneous
update, and the source order `w1, b1, b2, w2` gives the same post-step
state as the order `w1, b1, w2, b2`. -/
theorem gradient_updates_commute
    (grads : RegressionModel → Mat → Mat → Grad4)
    (dgrads : DigitClassificationModel → Mat → Mat → Grad4)
    (m : RegressionModel) (d : DigitClassificationModel) (x y : Mat) :
    RegressionModel.trainStep grads m x y =
      { m with
          w1 := matUpdate m.w1 (grads m x y).1 (-1 * m.learningRate),
          b1 := matUpdate m.b1 (grads m x y).2.1 (-1 * m.learningRate),
          w2 := matUpdate m.w2 (grads m x y).2.2.1 (-1 * m.learningRate),
          b2 := matUpdate m.b2 (grads m x y).2.2.2 (-1 * m.learningRate) } ∧
    RegressionModel.trainStep grads m x y =
      RegressionModel.trainStepAlt grads m x y ∧
    DigitClassificationModel.trainStep dgrads d x y =
      { d with
          w1 := matUpdate d.w1 (dgrads d x y).1 (-1 * d.learningRate),
          b1 := matUpdate d.b1 (dgrads d x y).2.1 (-1 * d.learningRate),
          w2 := matUpdate d.w2 (dgrads d x y).2.2.1 (-1 * d.learningRate),
          b2 := matUpdate d.b2 (dgrads d x y).2.2.2 (-1 * d.learningRate) } ∧
    DigitClassificationModel.trainStep dgrads d x y =
      DigitClassificationModel.trainStepAlt dgrads d x y :=
  ⟨rfl, rfl, rfl, rfl⟩

/-! ### Claim theorems: the regression training loop -/

/-- Claim C1: `RegressionModel.train` re-evaluates the scalar loss after
the updates of each batch; the `while` loop exits exactly when the
current scalar loss is `≤ 0.015`: at exit the last re-evaluated loss is
`≤ 0.015`, and while it is above `0.015` another sweep runs. -/
theorem reg_train_loss_threshold
    (grads : RegressionModel → Mat → Mat → Grad4) (sq : Mat → Mat → ℚ)
    (batches : List Batch) (fuel : ℕ) (s res : RState) :
    (regTrainAux grads sq batches fuel s = some res → res.2 ≤ 0.015) ∧
    (0.015 < s.2 →
      regTrainAux grads sq batches (fuel + 1) s =
        regTrainAux grads sq batches fuel (regSweep grads sq batches s)) ∧
    (s.2 ≤ 0.015 → regTrainAux grads sq batches fuel s = some s) := by
  refine ⟨?_, ?_, ?_⟩
  · induction fuel generalizing s with
    | zero =>
      intro h
      unfold regTrainAux at h
      split at h
      · injection h with h'; rw [← h']; assumption
      · cases h
    | succ n ih =>
      intro h
      unfold regTrainAux at h
      split at h
      · injection h with h'; rw [← h']; assumption
      · exact ih _ h
  · intro h
    show (if s.2 ≤ 0.015 then some s
          else regTrainAux grads sq batches fuel (regSweep grads sq batches s)) = _
    rw [if_neg (not_le.mpr h)]
  · intro h
    cases fuel <;> · unfold regTrainAux; rw [if_pos h]

/-- Witness for C1 with empty batch list and concrete oracles: a state
with loss `1 > 0.015` makes the loop sweep again, and a state with loss
`0.01 ≤ 0.015` makes it exit with that loss. -/
theorem reg_train_loss_threshold_witness :
    ((0.015 : ℚ) < 1 ∧
      regTrainAux cgrads csq [] 1 (cm, 1) =
        regTrainAux cgrads csq [] 0 (regSweep cgrads csq [] (cm, 1))) ∧
    ((0.01 : ℚ) ≤ 0.015 ∧
      regTrainAux cgrads csq [] 2 (cm, 0.01) = some (cm, 0.01)) ∧
    (regTrainAux cgrads csq [] 0 (cm, 0) = some (cm, 0) ∧
      ((cm, (0 : ℚ)) : RState).2 ≤ 0.015) :=
  ⟨⟨by norm_num,
    (reg_train_loss_threshold cgrads csq [] 0 (cm, 1) (cm, 1)).2.1 (by norm_num)⟩,
   ⟨by norm_num,
    (reg_train_loss_threshold cgrads csq [] 2 (cm, 0.01) (cm, 0.01)).2.2 (by norm_num)⟩,
   ⟨by norm_num [regTrainAux],
    (reg_train_loss_threshold cgrads csq [] 0 (cm, 0) (cm, 0)).1
      (by norm_num [regTrainAux])⟩⟩

/-- Claim C9: `RegressionModel.train` can exit only at a sweep boundary
(every exit state is an `n`-fold sweep image of the initial state), the
value tested by the `while` condition is the post-update loss of the
final batch of the completed sweep, and a sweep applies a gradient step
for every batch of the sequence whatever the intermediate losses. -/
theorem reg_train_sweep_boundary
    (grads : RegressionModel → Mat → Mat → Grad4) (sq : Mat → Mat → ℚ)
    (batches : List Batch) (fuel : ℕ) (s res : RState)
    (bs : List Batch) (b : Batch) :
    (regTrainAux grads sq batches fuel s = some res →
      ∃ n, n ≤ fuel ∧ res = regIterSweep grads sq batches s n) ∧
    (regSweep grads sq (bs ++ [b]) s =
      (RegressionModel.trainStep grads (regSweep grads sq bs s).1 b.1 b.2,
       sq ((RegressionModel.trainStep grads (regSweep grads sq bs s).1 b.1 b.2).run
            b.1) b.2)) ∧
    ((regSweep grads sq bs s).1 =
      bs.foldl (fun m bb => RegressionModel.trainStep grads m bb.1 bb.2) s.1) := by
  refine ⟨?_, ?_, ?_⟩
  · induction fuel generalizing s with
    | zero =>
      intro h
      unfold regTrainAux at h
      split at h
      · injection h with h'; exact ⟨0, le_refl 0, h'.symm⟩
      · cases h
    | succ n ih =>
      intro h
      unfold regTrainAux at h
      split at h
      · injection h with h'; exact ⟨0, Nat.zero_le _, h'.symm⟩
      · obtain ⟨k, hk, hres⟩ := ih _ h
        refine ⟨k + 1, Nat.succ_le_succ hk, ?_⟩
        rw [show regIterSweep grads sq batches s (k + 1)
            = regIterSweep grads sq batches (regSweep grads sq batches s) k from rfl]
        exact hres
  · simp [regSweep, List.foldl_append]
  · induction bs generalizing s with
    | nil => rfl
    | cons bb bs ih =>
      rw [show regSweep grads sq (bb :: bs) s
          = regSweep grads sq bs
              (RegressionModel.trainStep grads s.1 bb.1 bb.2,
               sq ((RegressionModel.trainStep grads s.1 bb.1 bb.2).run bb.1) bb.2)
          from rfl]
      rw [ih]
      rfl

/-- Witness for C9: a loop exit state at fuel `0` is the `0`-fold sweep
image of the initial state. -/
theorem reg_train_sweep_boundary_witness :
    regTrainAux cgrads csq [([[1]], [[1]])] 0 (cm, 0) = some (cm, 0) ∧
    ∃ n, n ≤ 0 ∧ ((cm, (0 : ℚ)) : RState)
      = regIterSweep cgrads csq [([[1]], [[1]])] (cm, 0) n :=
  ⟨by norm_num [regTrainAux],
   (reg_train_sweep_boundary cgrads csq [([[1]], [[1]])] 0 (cm, 0) (cm, 0) []
      ([[1]], [[1]])).1
     (by norm_num [regTrainAux])⟩

/-! ### Claim theorems: the digit classifier training loop -/

theorem digitTrainStep_batch_size
    (grads : DigitClassificationModel → Mat → Mat → Grad4)
    (m : DigitClassificationModel) (x y : Mat) :
    (DigitClassificationModel.trainStep grads m x y).batch_size = m.batch_size := rfl

theorem digitEpoch_batch_size
    (grads : DigitClassificationModel → Mat → Mat → Grad4)
    (batches : List Batch) (m : DigitClassificationModel) :
    (digitEpoch grads batches m).batch_size = m.batch_size := by
  induction batches generalizing m with
  | nil => rfl
  | cons b bs ih =>
    rw [show digitEpoch grads (b :: bs) m
        = digitEpoch grads bs (DigitClassificationModel.trainStep grads m b.1 b.2)
        from rfl]
    rw [ih]
    rfl

theorem iterate_digitEpoch_batch_size
    (grads : DigitClassificationModel → Mat → Mat → Grad4)
    (batches : List Batch) (n : ℕ) (m : DigitClassificationModel) :
    ((fun m => digitEpoch grads batches m)^[n] m).batch_size = m.batch_size := by
  induction n generalizing m with
  | zero => rfl
  | succ n ih =>
    rw [Function.iterate_succ_apply, ih]
    exact digitEpoch_batch_size grads batches m

theorem digit_train_fold
    (grads : DigitClassificationModel → Mat → Mat → Grad4)
    (io : ℕ → List Batch) :
    ∀ (n : ℕ) (m : DigitClassificationModel), m.batch_size = 100 →
      (List.range n).foldl (fun m _ => digitEpoch grads (io m.batch_size) m) m
        = (fun m => digitEpoch grads (io 100) m)^[n] m := by
  intro n
  induction n with
  | zero => intro m _; rfl
  | succ n ih =>
    intro m hm
    rw [List.range_succ, List.foldl_append, ih m hm, List.foldl_cons, List.foldl_nil,
      Function.iterate_succ_apply']
    rw [show ((fun m => digitEpoch grads (io 100) m)^[n] m).batch_size = 100 from
      (iterate_digitEpoch_batch_size grads (io 100) n m).trans hm]

theorem digitTrainCount_general
    (grads : DigitClassificationModel → Mat → Mat → Grad4)
    (io : ℕ → List Batch) :
    ∀ (l : List ℕ) (s : DigitClassificationModel × ℕ),
      ((l.foldl (fun s _ => (digitEpoch grads (io s.1.batch_size) s.1, s.2 + 1)) s).2
        = s.2 + l.length) ∧
      ((l.foldl (fun s _ => (digitEpoch grads (io s.1.batch_size) s.1, s.2 + 1)) s).1
        = l.foldl (fun m _ => digitEpoch grads (io m.batch_size) m) s.1) := by
  intro l
  induction l with
  | nil => intro s; exact ⟨by simp, rfl⟩
  | cons a l ih =>
    intro s
    rw [List.foldl_cons, List.foldl_cons]
    refine ⟨?_, (ih _).2⟩
    rw [(ih _).1]
    simp; omega

/-- Claim C3: `DigitClassificationModel.train` executes exactly 100 full
epochs with batch size 100 and learning rate 0.01; the epoch count is
100 for every gradient oracle and every dataset, with no early stopping:
the loop is a pure 100-fold iteration of the epoch function, each epoch
folding one gradient step over every batch. -/
theorem digit_train_exactly_100_epochs
    (grads : DigitClassificationModel → Mat → Mat → Grad4)
    (io : ℕ → List Batch) (w1 b1 w2 b2 : Mat) :
    (digitTrainCount grads io (digitInit w1 b1 w2 b2)).2 = 100 ∧
    (digitTrainCount grads io (digitInit w1 b1 w2 b2)).1
      = DigitClassificationModel.train grads io (digitInit w1 b1 w2 b2) ∧
    DigitClassificationModel.train grads io (digitInit w1 b1 w2 b2)
      = (fun m => digitEpoch grads (io 100) m)^[100] (digitInit w1 b1 w2 b2) ∧
    (∀ (batches : List Batch) m', digitEpoch grads batches m'
      = batches.foldl
          (fun m (b : Batch) => DigitClassificationModel.trainStep grads m b.1 b.2)
          m') ∧
    (digitInit w1 b1 w2 b2).batch_size = 100 ∧
    (digitInit w1 b1 w2 b2).learningRate = 0.01 := by
  refine ⟨?_, ?_, ?_, fun _ _ => rfl, rfl, rfl⟩
  · rw [show (digitTrainCount grads io (digitInit w1 b1 w2 b2)).2
        = ((List.range 100).foldl
            (fun s _ => (digitEpoch grads (io s.1.batch_size) s.1, s.2 + 1))
            (digitInit w1 b1 w2 b2, 0)).2 from rfl]
    rw [(digitTrainCount_general grads io (List.range 100) _).1]
    simp
  · exact (digitTrainCount_general grads io (List.range 100) _).2
  · exact digit_train_fold grads io 100 _ rfl

/-! ### Claim theorems: the elementwise update law -/

theorem zipWith_getD {α β γ : Type} (f : α → β → γ)
    (as : List α) (bs : List β) (i : ℕ) (d : γ) (da : α) (db : β)
    (ha : i < as.length) (hb : i < bs.length) :
    (List.zipWith f as bs).getD i d = f (as.getD i da) (bs.getD i db) := by
  induction as generalizing bs i with
  | nil => simp at ha
  | cons a as ih =>
    cases bs with
    | nil => simp at hb
    | cons b bs =>
      cases i with
      | zero => rfl
      | succ i =>
        simp only [List.zipWith_cons_cons, List.getD_cons_succ]
        exact ih bs i (by simpa using ha) (by simpa using hb)

theorem matUpdate_entry (p g : Mat) (s : ℚ) (i j : ℕ)
    (hp : entryOK p i j) (hg : entryOK g i j) :
    matEntry (matUpdate p g s) i j = matEntry p i j + s * matEntry g i j := by
  obtain ⟨hip, hjp⟩ := hp
  obtain ⟨hig, hjg⟩ := hg
  unfold matEntry matUpdate
  rw [zipWith_getD _ p g i [] [] [] hip hig]
  rw [zipWith_getD _ _ _ j 0 0 0 hjp hjg]

/-- Claim C4: every gradient step of `RegressionModel.train` and
`DigitClassificationModel.train` satisfies, for each of the four
Parameters, `param_after = param_before + (-learning_rate) * gradient`
elementwise, with `learning_rate = 0.01` and the gradient being the one
returned by `nn.gradients` for that parameter. -/
theorem gradient_step_update_law
    (grads : RegressionModel → Mat → Mat → Grad4)
    (dgrads : DigitClassificationModel → Mat → Mat → Grad4)
    (w1 b1 w2 b2 v1 c1 v2 c2 : Mat) (x y xd yd : Mat) (i j : ℕ) :
    (entryOK w1 i j → entryOK (grads (regInit w1 b1 w2 b2) x y).1 i j →
      matEntry (RegressionModel.trainStep grads (regInit w1 b1 w2 b2) x y).w1 i j
        = matEntry w1 i j
          + (-(0.01 : ℚ)) * matEntry (grads (regInit w1 b1 w2 b2) x y).1 i j) ∧
    (entryOK b1 i j → entryOK (grads (regInit w1 b1 w2 b2) x y).2.1 i j →
      matEntry (RegressionModel.trainStep grads (regInit w1 b1 w2 b2) x y).b1 i j
        = matEntry b1 i j
          + (-(0.01 : ℚ)) * matEntry (grads (regInit w1 b1 w2 b2) x y).2.1 i j) ∧
    (entryOK w2 i j → entryOK (grads (regInit w1 b1 w2 b2) x y).2.2.1 i j →
      matEntry (RegressionModel.trainStep grads (regInit w1 b1 w2 b2) x y).w2 i j
        = matEntry w2 i j
          + (-(0.01 : ℚ)) * matEntry (grads (regInit w1 b1 w2 b2) x y).2.2.1 i j) ∧
    (entryOK b2 i j → entryOK (grads (regInit w1 b1 w2 b2) x y).2.2.2 i j →
      matEntry (RegressionModel.trainStep grads (regInit w1 b1 w2 b2) x y).b2 i j
        = matEntry b2 i j
          + (-(0.01 : ℚ)) * matEntry (grads (regInit w1 b1 w2 b2) x y).2.2.2 i j) ∧
    (entryOK v1 i j → entryOK (dgrads (digitInit v1 c1 v2 c2) xd yd).1 i j →
      matEntry
          (DigitClassificationModel.trainStep dgrads (digitInit v1 c1 v2 c2) xd yd).w1
          i j
        = matEntry v1 i j
          + (-(0.01 : ℚ)) * matEntry (dgrads (digitInit v1 c1 v2 c2) xd yd).1 i j) ∧
    (entryOK c1 i j → entryOK (dgrads (digitInit v1 c1 v2 c2) xd yd).2.1 i j →
      matEntry
          (DigitClassificationModel.trainStep dgrads (digitInit v1 c1 v2 c2) xd yd).b1
          i j
        = matEntry c1 i j
          + (-(0.01 : ℚ)) * matEntry (dgrads (digitInit v1 c1 v2 c2) xd yd).2.1 i j) ∧
    (entryOK v2 i j → entryOK (dgrads (digitInit v1 c1 v2 c2) xd yd).2.2.1 i j →
      matEntry
          (DigitClassificationModel.trainStep dgrads (digitInit v1 c1 v2 c2) xd yd).w2
          i j
        = matEntry v2 i j
          + (-(0.01 : ℚ)) * matEntry (dgrads (digitInit v1 c1 v2 c2) xd yd).2.2.1 i j) ∧
    (entryOK c2 i j → entryOK (dgrads (digitInit v1 c1 v2 c2) xd yd).2.2.2 i j →
      matEntry
          (DigitClassificationModel.trainStep dgrads (digitInit v1 c1 v2 c2) xd yd).b2
          i j
        = matEntry c2 i j
          + (-(0.01 : ℚ)) * matEntry (dgrads (digitInit v1 c1 v2 c2) xd yd).2.2.2 i j) := by
  refine ⟨?_, ?_, ?_, ?_, ?_, ?_, ?_, ?_⟩
  · intro hp hg
    rw [show (RegressionModel.trainStep grads (regInit w1 b1 w2 b2) x y).w1
        = matUpdate w1 (grads (regInit w1 b1 w2 b2) x y).1 (-1 * (0.01 : ℚ)) from rfl]
    rw [matUpdate_entry _ _ _ _ _ hp hg]; norm_num
  · intro hp hg
    rw [show (RegressionModel.trainStep grads (regInit w1 b1 w2 b2) x y).b1
        = matUpdate b1 (grads (regInit w1 b1 w2 b2) x y).2.1 (-1 * (0.01 : ℚ)) from rfl]
    rw [matUpdate_entry _ _ _ _ _ hp hg]; norm_num
  · intro hp hg
    rw [show (RegressionModel.trainStep grads (regInit w1 b1 w2 b2) x y).w2
        = matUpdate w2 (grads (regInit w1 b1 w2 b2) x y).2.2.1 (-1 * (0.01 : ℚ)) from rfl]
    rw [matUpdate_entry _ _ _ _ _ hp hg]; norm_num
  · intro hp hg
    rw [show (RegressionModel.trainStep grads (regInit w1 b1 w2 b2) x y).b2
        = matUpdate b2 (grads (regInit w1 b1 w2 b2) x y).2.2.2 (-1 * (0.01 : ℚ)) from rfl]
    rw [matUpdate_entry _ _ _ _ _ hp hg]; norm_num
  · intro hp hg
    rw [show (DigitClassificationModel.trainStep dgrads (digitInit v1 c1 v2 c2) xd yd).w1
        = matUpdate v1 (dgrads (digitInit v1 c1 v2 c2) xd yd).1 (-1 * (0.01 : ℚ))
        from rfl]
    rw [matUpdate_entry _ _ _ _ _ hp hg]; norm_num
  · intro hp hg
    rw [show (DigitClassificationModel.trainStep dgrads (digitInit v1 c1 v2 c2) xd yd).b1
        = matUpdate c1 (dgrads (digitInit v1 c1 v2 c2) xd yd).2.1 (-1 * (0.01 : ℚ))
        from rfl]
    rw [matUpdate_entry _ _ _ _ _ hp hg]; norm_num
  · intro hp hg
    rw [show (DigitClassificationModel.trainStep dgrads (digitInit v1 c1 v2 c2) xd yd).w2
        = matUpdate v2 (dgrads (digitInit v1 c1 v2 c2) xd yd).2.2.1 (-1 * (0.01 : ℚ))
        from rfl]
    rw [matUpdate_entry _ _ _ _ _ hp hg]; norm_num
  · intro hp hg
    rw [show (DigitClassificationModel.trainStep dgrads (digitInit v1 c1 v2 c2) xd yd).b2
        = matUpdate c2 (dgrads (digitInit v1 c1 v2 c2) xd yd).2.2.2 (-1 * (0.01 : ℚ))
        from rfl]
    rw [matUpdate_entry _ _ _ _ _ hp hg]; norm_num

/-- Witness for C4 on `1 × 1` parameters `[[5]]` with gradients `[[3]]`,
entry `(0, 0)`, for each of the four Parameters of each model. -/
theorem gradient_step_update_law_witness :
    entryOK [[(5 : ℚ)]] 0 0 ∧ entryOK [[(3 : ℚ)]] 0 0 ∧
    matEntry (RegressionModel.trainStep cgrads cm [[1]] [[1]]).w1 0 0
      = matEntry [[(5 : ℚ)]] 0 0 + (-(0.01 : ℚ)) * matEntry [[(3 : ℚ)]] 0 0 ∧
    matEntry (RegressionModel.trainStep cgrads cm [[1]] [[1]]).b1 0 0
      = matEntry [[(5 : ℚ)]] 0 0 + (-(0.01 : ℚ)) * matEntry [[(3 : ℚ)]] 0 0 ∧
    matEntry (RegressionModel.trainStep cgrads cm [[1]] [[1]]).w2 0 0
      = matEntry [[(5 : ℚ)]] 0 0 + (-(0.01 : ℚ)) * matEntry [[(3 : ℚ)]] 0 0 ∧
    matEntry (RegressionModel.trainStep cgrads cm [[1]] [[1]]).b2 0 0
      = matEntry [[(5 : ℚ)]] 0 0 + (-(0.01 : ℚ)) * matEntry [[(3 : ℚ)]] 0 0 ∧
    matEntry (DigitClassificationModel.trainStep cdgrads cdm [[1]] [[1]]).w1 0 0
      = matEntry [[(5 : ℚ)]] 0 0 + (-(0.01 : ℚ)) * matEntry [[(3 : ℚ)]] 0 0 ∧
    matEntry (DigitClassificationModel.trainStep cdgrads cdm [[1]] [[1]]).b1 0 0
      = matEntry [[(5 : ℚ)]] 0 0 + (-(0.01 : ℚ)) * matEntry [[(3 : ℚ)]] 0 0 ∧
    matEntry (DigitClassificationModel.trainStep cdgrads cdm [[1]] [[1]]).w2 0 0
      = matEntry [[(5 : ℚ)]] 0 0 + (-(0.01 : ℚ)) * matEntry [[(3 : ℚ)]] 0 0 ∧
    matEntry (DigitClassificationModel.trainStep cdgrads cdm [[1]] [[1]]).b2 0 0
      = matEntry [[(5 : ℚ)]] 0 0 + (-(0.01 : ℚ)) * matEntry [[(3 : ℚ)]] 0 0 :=
  ⟨by decide, by decide,
   (gradient_step_update_law cgrads cdgrads
      [[5]] [[5]] [[5]] [[5]] [[5]] [[5]] [[5]] [[5]] [[1]] [[1]] [[1]] [[1]] 0 0).1
     (by decide) (by decide),
   (gradient_step_update_law cgrads cdgrads
      [[5]] [[5]] [[5]] [[5]] [[5]] [[5]] [[5]] [[5]] [[1]] [[1]] [[1]] [[1]] 0 0).2.1
     (by decide) (by decide),
   (gradient_step_update_law cgrads cdgrads
      [[5]] [[5]] [[5]] [[5]] [[5]] [[5]] [[5]] [[5]] [[1]] [[1]] [[1]] [[1]] 0 0).2.2.1
     (by decide) (by decide),
   (gradient_step_update_law cgrads cdgrads
      [[5]] [[5]] [[5]] [[5]] [[5]] [[5]] [[5]] [[5]] [[1]] [[1]] [[1]] [[1]] 0 0).2.2.2.1
     (by decide) (by decide),
   (gradient_step_update_law cgrads cdgrads
      [[5]] [[5]] [[5]] [[5]] [[5]] [[5]] [[5]] [[5]] [[1]] [[1]] [[1]] [[1]] 0 0).2.2.2.2.1
     (by decide) (by decide),
   (gradient_step_update_law cgrads cdgrads
      [[5]] [[5]] [[5]] [[5]] [[5]] [[5]] [[5]] [[5]] [[1]] [[1]] [[1]] [[1]] 0 0).2.2.2.2.2.1
     (by decide) (by decide),
   (gradient_step_update_law cgrads cdgrads
      [[5]] [[5]] [[5]] [[5]] [[5]] [[5]] [[5]] [[5]] [[1]] [[1]] [[1]] [[1]] 0 0).2.2.2.2.2.2.1
     (by decide) (by decide),
   (gradient_step_update_law cgrads cdgrads
      [[5]] [[5]] [[5]] [[5]] [[5]] [[5]] [[5]] [[5]] [[1]] [[1]] [[1]] [[1]] 0 0).2.2.2.2.2.2.2
     (by decide) (by decide)⟩

/-! ### Claim theorems: forward-pass topology and shapes -/

theorem matMul_shape (A B : Mat) (r k c : ℕ) (hA : isShape A r k)
    (hB : isShape B k c) (hk : 0 < k) : isShape (matMul A B) r c := by
  obtain ⟨hAr, _⟩ := hA
  obtain ⟨hBr, hBrow⟩ := hB
  constructor
  · simp [matMul, hAr]
  · intro row hrow
    simp only [matMul, List.mem_map] at hrow
    obtain ⟨arow, _, rfl⟩ := hrow
    simp only [List.length_map, List.length_range, numCols]
    cases B with
    | nil => simp at hBr; omega
    | cons b0 B' => exact hBrow b0 (by simp)

theorem addBias_shape (A b : Mat) (r c : ℕ) (hA : isShape A r c)
    (hb : isShape b 1 c) : isShape (addBias A b) r c := by
  obtain ⟨hAr, hArow⟩ := hA
  obtain ⟨hbr, hbrow⟩ := hb
  constructor
  · simp [addBias, hAr]
  · intro row hrow
    simp only [addBias, List.mem_map] at hrow
    obtain ⟨arow, harow, rfl⟩ := hrow
    have hhead : (b.headD []).length = c := by
      cases b with
      | nil => simp at hbr
      | cons b0 b' => exact hbrow b0 (by simp)
    rw [List.length_zipWith, hArow arow harow, hhead, min_self]

theorem relu_shape (A : Mat) (r c : ℕ) (hA : isShape A r c) :
    isShape (relu A) r c := by
  obtain ⟨hAr, hArow⟩ := hA
  constructor
  · simp [relu, hAr]
  · intro row hrow
    simp only [relu, List.mem_map] at hrow
    obtain ⟨arow, harow, rfl⟩ := hrow
    simp [hArow arow harow]

/-- Claim C7: both network models compute
`linear → add-bias → ReLU → linear → add-bias` over their four
Parameters; with the `__init__` shapes (`1×150, 1×150, 150×1, 1×1` for
regression; `784×150, 1×150, 150×10, 1×10` for digits) a `batch × 1`
input yields a `batch × 1` prediction and a `batch × 784` input yields
`batch × 10` logits. -/
theorem network_forward_shapes (w1 b1 w2 b2 v1 c1 v2 c2 x z : Mat) (batch : ℕ)
    (hw1 : isShape w1 1 150) (hb1 : isShape b1 1 150)
    (hw2 : isShape w2 150 1) (hb2 : isShape b2 1 1)
    (hv1 : isShape v1 784 150) (hc1 : isShape c1 1 150)
    (hv2 : isShape v2 150 10) (hc2 : isShape c2 1 10)
    (hx : isShape x batch 1) (hz : isShape z batch 784) :
    (regInit w1 b1 w2 b2).run x
      = addBias (matMul (relu (addBias (matMul x w1) b1)) w2) b2 ∧
    isShape ((regInit w1 b1 w2 b2).run x) batch 1 ∧
    (digitInit v1 c1 v2 c2).run z
      = addBias (matMul (relu (addBias (matMul z v1) c1)) v2) c2 ∧
    isShape ((digitInit v1 c1 v2 c2).run z) batch 10 := by
  refine ⟨rfl, ?_, rfl, ?_⟩
  · exact addBias_shape _ _ _ _
      (matMul_shape _ _ _ 150 _
        (relu_shape _ _ _
          (addBias_shape _ _ _ _
            (matMul_shape _ _ _ 1 _ hx hw1 (by norm_num)) hb1))
        hw2 (by norm_num))
      hb2
  · exact addBias_shape _ _ _ _
      (matMul_shape _ _ _ 150 _
        (relu_shape _ _ _
          (addBias_shape _ _ _ _
            (matMul_shape _ _ _ 784 _ hz hv1 (by norm_num)) hc1))
        hv2 (by norm_num))
      hc2

/-- Witness for C7 with zero-filled parameters of the `__init__` shapes
and a batch of one example for each model. -/
theorem network_forward_shapes_witness :
    isShape [List.replicate 150 (0 : ℚ)] 1 150 ∧
    isShape
      ((regInit [List.replicate 150 0] [List.replicate 150 0]
          (List.replicate 150 [0]) [[0]]).run [[0]]) 1 1 ∧
    isShape
      ((digitInit (List.replicate 784 (List.replicate 150 0))
          [List.replicate 150 0] (List.replicate 150 (List.replicate 10 0))
          [List.replicate 10 0]).run [List.replicate 784 0]) 1 10 := by
  have hH : ∀ (n : ℕ), isShape [List.replicate n (0 : ℚ)] 1 n := by
    intro n
    constructor
    · simp
    · intro row hrow
      simp at hrow
      simp [hrow]
  have hV : ∀ (r c : ℕ), isShape (List.replicate r (List.replicate c (0 : ℚ))) r c := by
    intro r c
    constructor
    · simp
    · intro row hrow
      rw [List.eq_of_mem_replicate hrow]
      simp
  have hw2 : isShape (List.replicate 150 [(0 : ℚ)]) 150 1 := by
    constructor
    · simp
    · intro row hrow
      rw [List.eq_of_mem_replicate hrow]
      simp
  refine ⟨hH 150, ?_, ?_⟩
  · exact (network_forward_shapes [List.replicate 150 0] [List.replicate 150 0]
      (List.replicate 150 [0]) [[0]]
      (List.replicate 784 (List.replicate 150 0)) [List.replicate 150 0]
      (List.replicate 150 (List.replicate 10 0)) [List.replicate 10 0]
      [[0]] [List.replicate 784 0] 1
      (hH 150) (hH 150) hw2 (hH 1)
      (hV 784 150) (hH 150) (hV 150 10) (hH 10)
      (hH 1) (hH 784)).2.1
  · exact (network_forward_shapes [List.replicate 150 0] [List.replicate 150 0]
      (List.replicate 150 [0]) [[0]]
      (List.replicate 784 (List.replicate 150 0)) [List.replicate 150 0]
      (List.replicate 150 (List.replicate 10 0)) [List.replicate 10 0]
      [[0]] [List.replicate 784 0] 1
      (hH 150) (hH 150) hw2 (hH 1)
      (hV 784 150) (hH 150) (hV 150 10) (hH 10)
      (hH 1) (hH 784)).2.2.2

/-! ### Perceptron convergence: dot-product algebra -/

theorem dot_comm : ∀ a b : Vec, dot a b = dot b a := by
  intro a
  induction a with
  | nil => intro b; rw [dot_nil_left, dot_nil_right]
  | cons x a ih =>
    intro b
    cases b with
    | nil => rw [dot_nil_left, dot_nil_right]
    | cons y b => rw [dot_cons, dot_cons, ih b, mul_comm]

theorem dot_smul_left (c : ℚ) : ∀ a b : Vec, dot (smul c a) b = c * dot a b := by
  intro a
  induction a with
  | nil => intro b; simp [smul, dot_nil_left]
  | cons x a ih =>
    intro b
    cases b with
    | nil => simp [dot_nil_right]
    | cons y b =>
      rw [show smul c (x :: a) = (c * x) :: smul c a from rfl]
      rw [dot_cons, dot_cons, ih b]
      ring

theorem dot_smul_right (c : ℚ) (a b : Vec) : dot a (smul c b) = c * dot a b := by
  rw [dot_comm, dot_smul_left, dot_comm]

theorem dot_vadd_left :
    ∀ a₁ a₂ b : Vec, a₁.length = a₂.length →
      dot (vadd a₁ a₂) b = dot a₁ b + dot a₂ b := by
  intro a₁
  induction a₁ with
  | nil =>
    intro a₂ b h
    have : a₂ = [] := List.eq_nil_of_length_eq_zero h.symm
    subst this
    simp [vadd, dot_nil_left]
  | cons x a₁ ih =>
    intro a₂ b h
    cases a₂ with
    | nil => simp at h
    | cons y a₂ =>
      cases b with
      | nil => simp [dot_nil_right]
      | cons z b =>
        rw [show vadd (x :: a₁) (y :: a₂) = (x + y) :: vadd a₁ a₂ from rfl]
        rw [dot_cons, dot_cons, dot_cons, ih a₂ b (by simpa using h)]
        ring

theorem dot_vadd_right (b a₁ a₂ : Vec) (h : a₁.length = a₂.length) :
    dot b (vadd a₁ a₂) = dot b a₁ + dot b a₂ := by
  rw [dot_comm, dot_vadd_left a₁ a₂ b h, dot_comm a₁ b, dot_comm a₂ b]

theorem normSq_nonneg : ∀ a : Vec, 0 ≤ normSq a := by
  intro a
  induction a with
  | nil => exact le_refl 0
  | cons x a ih =>
    rw [show normSq (x :: a) = x * x + normSq a from by rw [normSq, dot_cons]; rfl]
    nlinarith [ih]

theorem normSq_cons (x : ℚ) (a : Vec) : normSq (x :: a) = x * x + normSq a := by
  rw [normSq, dot_cons]; rfl

/-- Discrete Cauchy–Schwarz for list dot products. -/
theorem dot_sq_le_normSq_mul_normSq : ∀ a b : Vec,
    (dot a b) ^ 2 ≤ normSq a * normSq b := by
  intro a
  induction a with
  | nil =>
    intro b
    rw [dot_nil_left]
    simp [normSq, dot_nil_left]
  | cons x a ih =>
    intro b
    cases b with
    | nil =>
      rw [dot_nil_right]
      simp [normSq, dot_nil_right]
    | cons y b =>
      rw [dot_cons, normSq_cons, normSq_cons]
      have hA := normSq_nonneg a
      have hB := normSq_nonneg b
      have hIH := ih b
      have hkey : 2 * (x * y) * dot a b ≤ x ^ 2 * normSq b + normSq a * y ^ 2 := by
        have hsq : (2 * (x * y) * dot a b) ^ 2
            ≤ (x ^ 2 * normSq b + normSq a * y ^ 2) ^ 2 := by
          nlinarith [sq_nonneg (x ^ 2 * normSq b - normSq a * y ^ 2),
            mul_nonneg (mul_nonneg (sq_nonneg x) (sq_nonneg y))
              (sub_nonneg.mpr hIH)]
        exact le_of_sq_le_sq hsq (by positivity)
      nlinarith [hkey, hIH, hA, hB]

/-- Length is preserved by a perceptron update with a direction of the
same dimension. -/
theorem update_length (w x : Vec) (y : ℚ) (h : x.length = w.length) :
    (update w x y).length = w.length := by
  simp [update, vadd, smul, h]

/-- Expansion of the squared norm after a perceptron update. -/
theorem normSq_update (w x : Vec) (y : ℚ) (h : x.length = w.length) :
    normSq (update w x y)
      = normSq w + 2 * y * dot w x + y ^ 2 * normSq x := by
  have hu : (smul y x).length = w.length := by simp [smul, h]
  rw [show update w x y = vadd w (smul y x) from rfl]
  rw [normSq, dot_vadd_left w (smul y x) _ hu.symm]
  rw [dot_vadd_right w w (smul y x) hu.symm, dot_vadd_right (smul y x) w (smul y x) hu.symm]
  rw [dot_smul_right, dot_smul_left, dot_smul_left, dot_smul_right]
  rw [dot_comm x w]
  rw [show dot w w = normSq w from rfl, show dot x x = normSq x from rfl]
  ring

/-- Score of the separator against an updated weight vector. -/
theorem dot_update_sep (w x ws : Vec) (y : ℚ) (h : x.length = w.length) :
    dot (update w x y) ws = dot w ws + y * dot ws x := by
  rw [show update w x y = vadd w (smul y x) from rfl]
  rw [dot_vadd_left w (smul y x) ws (by simp [smul, h])]
  rw [dot_smul_left, dot_comm x ws]

/-! ### Perceptron convergence: invariants and mistake bound -/

theorem exists_pos_lower_bound (f : Ex → ℚ) :
    ∀ D : List Ex, (∀ e ∈ D, 0 < f e) → ∃ γ : ℚ, 0 < γ ∧ ∀ e ∈ D, γ ≤ f e := by
  intro D
  induction D with
  | nil => exact fun _ => ⟨1, one_pos, by simp⟩
  | cons e D ih =>
    intro h
    obtain ⟨γ, hγ, hle⟩ := ih (fun e' he' => h e' (List.mem_cons_of_mem e he'))
    refine ⟨min γ (f e), lt_min hγ (h e (List.mem_cons_self e D)), ?_⟩
    intro e' he'
    rcases List.mem_cons.mp he' with rfl | he'
    · exact min_le_right _ _
    · exact le_trans (min_le_left _ _) (hle e' he')

theorem exists_normSq_upper_bound :
    ∀ D : List Ex, ∃ R2 : ℚ, 0 ≤ R2 ∧ ∀ e ∈ D, normSq e.1 ≤ R2 := by
  intro D
  induction D with
  | nil => exact ⟨0, le_refl 0, by simp⟩
  | cons e D ih =>
    obtain ⟨R2, hR2, hle⟩ := ih
    refine ⟨max R2 (normSq e.1), le_trans hR2 (le_max_left _ _), ?_⟩
    intro e' he'
    rcases List.mem_cons.mp he' with rfl | he'
    · exact le_max_right _ _
    · exact le_trans (hle e' he') (le_max_left _ _)

/-- A misclassified `±1`-labeled example has nonpositive signed score. -/
theorem mistake_score_nonpos (w x : Vec) (y : ℚ) (hy : y = 1 ∨ y = -1)
    (hne : get_prediction w x ≠ y) : y * dot w x ≤ 0 := by
  rcases hy with rfl | rfl
  · by_cases hc : 0 ≤ dot w x
    · exact absurd (by simp [get_prediction, run, hc]) hne
    · push_neg at hc; nlinarith
  · by_cases hc : 0 ≤ dot w x
    · nlinarith
    · exact absurd (by simp [get_prediction, run, not_le.mp hc]) hne

/-- Per-sweep Novikoff invariant: each mistake raises the separator
score by at least the margin `γ` and raises the squared norm by at most
`R2`. -/
theorem sweep_invariant (ws : Vec) (γ R2 : ℚ) (d : ℕ) :
    ∀ (L : List Ex) (w : Vec), w.length = d →
      (∀ e ∈ L, e.1.length = d ∧ (e.2 = 1 ∨ e.2 = -1) ∧
        γ ≤ e.2 * dot ws e.1 ∧ normSq e.1 ≤ R2) →
      (sweepM w L).1.length = d ∧
      dot w ws + (((sweepM w L).2 : ℕ) : ℚ) * γ ≤ dot (sweepM w L).1 ws ∧
      normSq (sweepM w L).1 ≤ normSq w + (((sweepM w L).2 : ℕ) : ℚ) * R2 := by
  intro L
  induction L with
  | nil =>
    intro w hw _
    refine ⟨hw, ?_, ?_⟩ <;> simp [sweepM]
  | cons e L ih =>
    intro w hw hL
    obtain ⟨hel, hey, hemargin, heR⟩ := hL e (List.mem_cons_self e L)
    by_cases hpred : get_prediction w e.1 ≠ e.2
    · have hstep : sweepM w (e :: L)
          = ((sweepM (update w e.1 e.2) L).1, (sweepM (update w e.1 e.2) L).2 + 1) := by
        simp [sweepM, hpred]
      have hxw : e.1.length = w.length := by rw [hel, hw]
      have hulen : (update w e.1 e.2).length = d := by
        rw [update_length w e.1 e.2 hxw]; exact hw
      obtain ⟨ih1, ih2, ih3⟩ := ih (update w e.1 e.2) hulen
        (fun e' he' => hL e' (List.mem_cons_of_mem e he'))
      have hscore : e.2 * dot w e.1 ≤ 0 := mistake_score_nonpos w e.1 e.2 hey hpred
      have hsep : dot (update w e.1 e.2) ws = dot w ws + e.2 * dot ws e.1 :=
        dot_update_sep w e.1 ws e.2 hxw
      have hnorm : normSq (update w e.1 e.2)
          = normSq w + 2 * e.2 * dot w e.1 + e.2 ^ 2 * normSq e.1 :=
        normSq_update w e.1 e.2 hxw
      have hy2 : e.2 ^ 2 = 1 := by rcases hey with h | h <;> rw [h] <;> norm_num
      rw [hstep]
      refine ⟨ih1, ?_, ?_⟩
      · push_cast
        have hup : dot w ws + γ ≤ dot (update w e.1 e.2) ws := by
          rw [hsep]; linarith [hemargin]
        linarith [ih2]
      · push_cast
        have hup : normSq (update w e.1 e.2) ≤ normSq w + R2 := by
          rw [hnorm, hy2]; nlinarith [hscore, heR]
        linarith [ih3]
    · have heq : get_prediction w e.1 = e.2 := not_not.mp hpred
      have hstep : sweepM w (e :: L) = sweepM w L := by
        simp [sweepM, heq]
      rw [hstep]
      exact ih w hw (fun e' he' => hL e' (List.mem_cons_of_mem e he'))

/-- Multi-sweep Novikoff invariant for the whole training run. -/
theorem run_invariant (D : List Ex) (ws : Vec) (γ R2 : ℚ) (d : ℕ)
    (hD : ∀ e ∈ D, e.1.length = d ∧ (e.2 = 1 ∨ e.2 = -1) ∧
      γ ≤ e.2 * dot ws e.1 ∧ normSq e.1 ≤ R2) :
    ∀ (n : ℕ) (w : Vec), w.length = d →
      (iterSweep D w n).length = d ∧
      dot w ws + ((totalMistakes D w n : ℕ) : ℚ) * γ ≤ dot (iterSweep D w n) ws ∧
      normSq (iterSweep D w n) ≤ normSq w + ((totalMistakes D w n : ℕ) : ℚ) * R2 := by
  intro n
  induction n with
  | zero =>
    intro w hw
    exact ⟨hw, by simp [iterSweep, totalMistakes], by simp [iterSweep, totalMistakes]⟩
  | succ n ih =>
    intro w hw
    obtain ⟨s1, s2, s3⟩ := sweep_invariant ws γ R2 d D w hw hD
    obtain ⟨i1, i2, i3⟩ := ih (sweepM w D).1 s1
    rw [show iterSweep D w (n + 1) = iterSweep D (sweepM w D).1 n from rfl,
        show totalMistakes D w (n + 1)
          = (sweepM w D).2 + totalMistakes D (sweepM w D).1 n from rfl]
    refine ⟨i1, ?_, ?_⟩
    · push_cast
      linarith [s2, i2]
    · push_cast
      linarith [s3, i3]

/-- On strictly separated data the total number of perceptron mistakes
is bounded, uniformly in the number of sweeps (Novikoff's bound, adapted
to an arbitrary initial weight vector). -/
theorem mistakes_bounded (D : List Ex) (w ws : Vec) (γ R2 : ℚ) (hγ : 0 < γ)
    (hR2 : 0 ≤ R2)
    (hD : ∀ e ∈ D, e.1.length = w.length ∧ (e.2 = 1 ∨ e.2 = -1) ∧
      γ ≤ e.2 * dot ws e.1 ∧ normSq e.1 ≤ R2) :
    ∃ N : ℕ, ∀ n : ℕ, totalMistakes D w n ≤ N := by
  refine ⟨⌈|dot w ws| / γ
    + (normSq w * normSq ws + R2 * normSq ws + 2 * |dot w ws| * γ) / γ ^ 2 + 1⌉₊, ?_⟩
  intro n
  obtain ⟨_, h1, h2⟩ := run_invariant D ws γ R2 w.length hD n w rfl
  have hCS := dot_sq_le_normSq_mul_normSq (iterSweep D w n) ws
  set c0 := dot w ws with hc0
  set n0 := normSq w with hn0
  set W := normSq ws with hW
  set k : ℚ := ((totalMistakes D w n : ℕ) : ℚ) with hk
  set Bq : ℚ := |c0| / γ + (n0 * W + R2 * W + 2 * |c0| * γ) / γ ^ 2 + 1 with hBq
  have hn0' : 0 ≤ n0 := by rw [hn0]; exact normSq_nonneg w
  have hW' : 0 ≤ W := by rw [hW]; exact normSq_nonneg ws
  have hk0 : 0 ≤ k := by rw [hk]; exact Nat.cast_nonneg _
  have hBq0 : 0 ≤ Bq := by
    rw [hBq]
    have hrest : 0 ≤ (n0 * W + R2 * W + 2 * |c0| * γ) / γ ^ 2 := by positivity
    have habsd : 0 ≤ |c0| / γ := by positivity
    linarith
  clear_value c0 n0 W k Bq
  have hkB : k ≤ Bq := by
    rcases Nat.eq_zero_or_pos (totalMistakes D w n) with h0 | hpos
    · rw [hk, h0]
      simpa using hBq0
    · have hk1 : (1 : ℚ) ≤ k := by rw [hk]; exact_mod_cast hpos
      rcases le_or_lt (c0 + k * γ) 0 with hc | hc
      · have habs : k * γ ≤ |c0| := by
          have := neg_abs_le c0
          linarith
        have hdiv : k ≤ |c0| / γ := (le_div_iff hγ).mpr habs
        have hrest : 0 ≤ (n0 * W + R2 * W + 2 * |c0| * γ) / γ ^ 2 := by positivity
        rw [hBq]
        linarith
      · have hsq : (c0 + k * γ) ^ 2 ≤ (n0 + k * R2) * W := by
          calc (c0 + k * γ) ^ 2
              ≤ (dot (iterSweep D w n) ws) ^ 2 :=
                pow_le_pow_left (le_of_lt hc) h1 2
            _ ≤ normSq (iterSweep D w n) * W := hCS
            _ ≤ (n0 + k * R2) * W := mul_le_mul_of_nonneg_right h2 hW'
        have hlin : γ ^ 2 * k ≤ n0 * W + R2 * W + 2 * |c0| * γ := by
          by_contra hng
          push_neg at hng
          have habs1 : -|c0| ≤ c0 := neg_abs_le c0
          have hkpos : (0 : ℚ) < k := by linarith
          have hmul : (n0 * W + R2 * W + 2 * |c0| * γ) * k < (γ ^ 2 * k) * k :=
            mul_lt_mul_of_pos_right hng hkpos
          have hA : 0 ≤ (k - 1) * (n0 * W) :=
            mul_nonneg (by linarith) (mul_nonneg hn0' hW')
          have hB2 : 0 ≤ 2 * k * γ * (|c0| + c0) :=
            mul_nonneg
              (mul_nonneg (mul_nonneg (by norm_num) hk0) (le_of_lt hγ))
              (by linarith)
          nlinarith [hsq, hmul, hA, hB2, sq_nonneg c0]
        have hdiv : k ≤ (n0 * W + R2 * W + 2 * |c0| * γ) / γ ^ 2 := by
          rw [le_div_iff (by positivity : (0 : ℚ) < γ ^ 2)]
          linarith
        have habsd : 0 ≤ |c0| / γ := by positivity
        rw [hBq]
        linarith
  have hceil : Bq ≤ (⌈Bq⌉₊ : ℚ) := Nat.le_ceil Bq
  have hfin : ((totalMistakes D w n : ℕ) : ℚ) ≤ ((⌈Bq⌉₊ : ℕ) : ℚ) := by
    rw [← hk]
    exact hkB.trans hceil
  exact_mod_cast hfin

/-- While every sweep still makes a mistake, the total mistake count
grows at least linearly in the number of sweeps. -/
theorem mistakes_lower_bound (D : List Ex) :
    ∀ (n : ℕ) (w : Vec), (∀ m : ℕ, (sweepM (iterSweep D w m) D).2 ≠ 0) →
      n ≤ totalMistakes D w n := by
  intro n
  induction n with
  | zero => intro w _; exact Nat.zero_le _
  | succ n ih =>
    intro w h
    have h0 : (sweepM w D).2 ≠ 0 := by
      have := h 0
      simpa [iterSweep] using this
    have hrec := ih (sweepM w D).1 (fun m => by
      have hm := h (m + 1)
      rwa [show iterSweep D w (m + 1) = iterSweep D (sweepM w D).1 m from rfl] at hm)
    rw [show totalMistakes D w (n + 1)
        = (sweepM w D).2 + totalMistakes D (sweepM w D).1 n from rfl]
    omega

/-- A sweep with zero mistakes leaves the weights unchanged and
classifies every example of the dataset correctly. -/
theorem sweepM_zero_mistakes : ∀ (L : List Ex) (w : Vec), (sweepM w L).2 = 0 →
    (sweepM w L).1 = w ∧ ∀ e ∈ L, get_prediction w e.1 = e.2 := by
  intro L
  induction L with
  | nil => intro w _; exact ⟨rfl, by simp⟩
  | cons e L ih =>
    intro w h
    by_cases hpred : get_prediction w e.1 = e.2
    · have hstep : sweepM w (e :: L) = sweepM w L := by simp [sweepM, hpred]
      rw [hstep] at h ⊢
      obtain ⟨h1, h2⟩ := ih w h
      refine ⟨h1, ?_⟩
      intro e' he'
      rcases List.mem_cons.mp he' with rfl | he'
      · exact hpred
      · exact h2 e' he'
    · have hstep : sweepM w (e :: L)
          = ((sweepM (update w e.1 e.2) L).1, (sweepM (update w e.1 e.2) L).2 + 1) := by
        simp [sweepM, hpred]
      rw [hstep] at h
      simp at h

/-- Claim C2 (amended): `PerceptronModel.train` terminates exactly when a
full batch-size-1 sweep makes zero mistakes, with no cap on the number of
sweeps; for every strictly linearly separable `±1`-labeled dataset
(`∃ ws` of the weight dimension with `y·(ws·x) > 0` for all examples) it
terminates from any initial weights, the terminal sweep leaves the
weights unchanged, and `get_prediction` then agrees with every true
label.  (A non-strictly-separable dataset may nevertheless terminate,
so the converse direction of the original claim fails; see the
counterexample.) -/
theorem perceptron_train_terminates_of_separable (D : List Ex) (w : Vec)
    (hlab : ∀ e ∈ D, e.2 = 1 ∨ e.2 = -1)
    (hlen : ∀ e ∈ D, e.1.length = w.length)
    (hsep : StrictlySeparable w.length D) :
    ∃ n, (sweepM (iterSweep D w n) D).2 = 0 ∧
      (sweepM (iterSweep D w n) D).1 = iterSweep D w n ∧
      ∀ e ∈ D, get_prediction (iterSweep D w n) e.1 = e.2 := by
  obtain ⟨ws, hwsl, hpos⟩ := hsep
  obtain ⟨γ, hγ, hmargin⟩ := exists_pos_lower_bound (fun e => e.2 * dot ws e.1) D hpos
  obtain ⟨R2, hR2, hRle⟩ := exists_normSq_upper_bound D
  have hD : ∀ e ∈ D, e.1.length = w.length ∧ (e.2 = 1 ∨ e.2 = -1) ∧
      γ ≤ e.2 * dot ws e.1 ∧ normSq e.1 ≤ R2 :=
    fun e he => ⟨hlen e he, hlab e he, hmargin e he, hRle e he⟩
  obtain ⟨N, hN⟩ := mistakes_bounded D w ws γ R2 hγ hR2 hD
  by_cases hterm : ∃ n, (sweepM (iterSweep D w n) D).2 = 0
  · obtain ⟨n, hn⟩ := hterm
    obtain ⟨h1, h2⟩ := sweepM_zero_mistakes D (iterSweep D w n) hn
    exact ⟨n, hn, h1, h2⟩
  · push_neg at hterm
    have hlow := mistakes_lower_bound D (N + 1) w hterm
    have hup := hN (N + 1)
    omega

/-- Witness for C2 (amended) on the strictly separable dataset
`[([1], +1)]` from initial weights `[0]`. -/
theorem perceptron_train_terminates_witness :
    (∀ e ∈ [(([1] : Vec), (1 : ℚ))], e.2 = 1 ∨ e.2 = -1) ∧
    StrictlySeparable ([0] : Vec).length [(([1] : Vec), (1 : ℚ))] ∧
    ∃ n, (sweepM (iterSweep [(([1] : Vec), (1 : ℚ))] [0] n)
          [(([1] : Vec), (1 : ℚ))]).2 = 0 ∧
      (sweepM (iterSweep [(([1] : Vec), (1 : ℚ))] [0] n)
          [(([1] : Vec), (1 : ℚ))]).1
        = iterSweep [(([1] : Vec), (1 : ℚ))] [0] n ∧
      ∀ e ∈ [(([1] : Vec), (1 : ℚ))],
        get_prediction (iterSweep [(([1] : Vec), (1 : ℚ))] [0] n) e.1 = e.2 :=
  ⟨by norm_num, ⟨[1], by norm_num [dot]⟩,
   perceptron_train_terminates_of_separable [(([1] : Vec), (1 : ℚ))] [0]
     (by norm_num) (by norm_num) ⟨[1], by norm_num [dot]⟩⟩

/-- Counterexample to C2 as stated: the dataset `[([0], +1)]` is not
strictly linearly separable (every weight vector scores the zero input
as `0`, never strictly positively), yet `PerceptronModel.train`
terminates on it immediately — the zero score is predicted `+1`, which
matches the label, so the first sweep makes no mistakes. -/
theorem perceptron_nonseparable_may_terminate :
    ¬ StrictlySeparable 1 [(([0] : Vec), (1 : ℚ))] ∧
    perceptronTerminates [(([0] : Vec), (1 : ℚ))] [0] := by
  constructor
  · rintro ⟨ws, hlen, hpos⟩
    have h := hpos ([0], 1) (by simp)
    have hz : dot ws [0] = 0 := by
      cases ws with
      | nil => rfl
      | cons a t => simp [dot]
    rw [hz] at h
    simp at h
  · exact ⟨0, by norm_num [iterSweep, sweepM, get_prediction, run, dot]⟩

/-- On the (weakly classifiable but not strictly separable) dataset
`[([1], +1), ([-1], +1)]`, `PerceptronModel.train` started at `[1/2]`
really never terminates: the weights oscillate and every sweep makes a
mistake.  There is no hidden cap on the number of sweeps. -/
theorem perceptron_can_loop_forever :
    ¬ perceptronTerminates [(([1] : Vec), (1 : ℚ)), ([-1], 1)] [1/2] := by
  have h1 : sweepM [(1 : ℚ)/2] [(([1] : Vec), (1 : ℚ)), ([-1], 1)]
      = ([-(1 : ℚ)/2], 1) := by
    norm_num [sweepM, get_prediction, run, dot, update, vadd, smul]
  have h2 : sweepM [-(1 : ℚ)/2] [(([1] : Vec), (1 : ℚ)), ([-1], 1)]
      = ([-(1 : ℚ)/2], 2) := by
    norm_num [sweepM, get_prediction, run, dot, update, vadd, smul]
  have hiter : ∀ n, iterSweep [(([1] : Vec), (1 : ℚ)), ([-1], 1)] [-(1 : ℚ)/2] n
      = [-(1 : ℚ)/2] := by
    intro n
    induction n with
    | zero => rfl
    | succ n ih =>
      rw [show iterSweep [(([1] : Vec), (1 : ℚ)), ([-1], 1)] [-(1 : ℚ)/2] (n + 1)
          = iterSweep [(([1] : Vec), (1 : ℚ)), ([-1], 1)]
              (sweepM [-(1 : ℚ)/2] [(([1] : Vec), (1 : ℚ)), ([-1], 1)]).1 n from rfl,
        h2]
      exact ih
  rintro ⟨n, hn⟩
  cases n with
  | zero =>
    rw [show iterSweep [(([1] : Vec), (1 : ℚ)), ([-1], 1)] [1/2] 0 = [(1 : ℚ)/2]
        from rfl, h1] at hn
    simp at hn
  | succ n =>
    rw [show iterSweep [(([1] : Vec), (1 : ℚ)), ([-1], 1)] [1/2] (n + 1)
        = iterSweep [(([1] : Vec), (1 : ℚ)), ([-1], 1)]
            (sweepM [(1 : ℚ)/2] [(([1] : Vec), (1 : ℚ)), ([-1], 1)]).1 n from rfl,
      h1] at hn
    rw [show (([-(1 : ℚ)/2], 1) : Vec × ℕ).1 = [-(1 : ℚ)/2] from rfl] at hn
    rw [hiter n, h2] at hn
    simp at hn

end PacmanML
